import Mathlib

/-!
Verification of the TailorTalk scheduling core against its specification.

Two components are embedded from the source:

* `Cal` — the free-slot search `GoogleCalendarService.find_free_slots`
  (backend/cal_service/google_calendar.py).  Timestamps are modelled as
  natural numbers counting seconds since an epoch placed at a Monday
  00:00:00 UTC, so that Python's `datetime.weekday()` (Monday = 0) becomes
  `t / 86400 % 7`.  Busy intervals are taken after per-interval parsing,
  as pairs of timestamps.

* `SmartAgent` — the natural-language date resolver
  `SmartTailorTalkAgent._parse_smart_date` (backend/agents/smart_agent.py).
  Python `datetime` values are modelled as year/month/day/hour/minute/
  second/microsecond records with the proleptic-Gregorian calendar and the
  year range 1..9999; operations that can raise (`replace` on an invalid
  date, `+ timedelta` overflowing year 9999) return `Option`, and the
  resolver's `try`/`except` blocks become the corresponding fallbacks.
  The whitespace class is Python's full Unicode table; lowercasing and the
  digit class are modelled at ASCII, so the resolver theorems carry a
  `plainStr` hypothesis naming the character set on which the lexical
  model is exact (see `plainChar`).
-/

namespace Cal

/-- Seconds in a day. -/
def daySec : Nat := 86400

/-- Python `datetime.weekday()`: Monday = 0 … Sunday = 6.  The epoch of the
model is a Monday 00:00:00. -/
def weekday (t : Nat) : Nat := t / daySec % 7

/-- The `.hour` field of a timestamp. -/
def hourOf (t : Nat) : Nat := t % daySec / 3600

/-- Python `t.replace(hour := h, minute := 0, second := 0, microsecond := 0)`:
keep the day, set the time of day to `h:00:00`. -/
def atHour (t h : Nat) : Nat := t / daySec * daySec + h * 3600

/-- A returned slot: the source emits
`{'start': current_time, 'end': slot_end, 'duration_minutes': d}`.
(`end` is a reserved word in Lean, so the field is named `stop`.) -/
structure Slot where
  start : Nat
  stop : Nat
  duration_minutes : Nat
deriving DecidableEq, Repr

/-- Insertion step of a stable ascending sort by interval start
(`busy_times.sort(key=lambda x: x[0])`).  The element being inserted comes
from earlier in the original list than everything already inserted (the
sort below folds from the right), so placing it before the first element
with an equal-or-larger key preserves the original order of equal keys,
as Python's stable sort does. -/
def insertBusy (x : Nat × Nat) : List (Nat × Nat) → List (Nat × Nat)
  | [] => [x]
  | y :: ys => if x.1 ≤ y.1 then x :: y :: ys else y :: insertBusy x ys

/-- Stable sort of the busy intervals by start time. -/
def sortBusy : List (Nat × Nat) → List (Nat × Nat)
  | [] => []
  | x :: xs => insertBusy x (sortBusy xs)

/-- The source's conflict test for a candidate slot `[cur, slotEnd)` against
a busy interval `b`: `current_time < busy_end and slot_end > busy_start`. -/
def conflict (cur slotEnd : Nat) (b : Nat × Nat) : Bool :=
  decide (cur < b.2) && decide (slotEnd > b.1)

/-- The `while current_time < end_business_day` loop of `find_free_slots`,
with an explicit iteration budget (`fuel`) to make the recursion structural.
Each iteration: skip weekends to the next day's opening hour; otherwise
look for the first busy interval conflicting with the candidate slot — on
a conflict the cursor is set to that interval's end and (because the code
then falls through to the `else` arm) advanced a further 15 minutes; with
no conflict the slot is emitted when `slot_end.hour <= close_hour`, and
the cursor steps 30 minutes after an emission and 15 minutes otherwise.
The cursor strictly increases every iteration, so `endBd - cur` iterations
always suffice; `sweepF_irrel` below shows the budget is irrelevant once
sufficient, so `sweep` is exactly the source's unbounded loop.

Caveat: timestamps here are unbounded naturals, whereas Python datetimes
stop at 9999-12-31; cursor arithmetic that would pass `datetime.max` (a
busy interval ending at 9999-12-31T23:59:59 followed by the 15-minute
step, or a huge `duration_minutes`) raises an uncaught `OverflowError` in
the source.  The model does not capture that error path, so no theorem
below asserts that `find_free_slots` never raises; the properties proved
are of the form "every returned slot satisfies …" or "the result is empty
when …", which hold vacuously for source runs that raise. -/
def sweepF (busy : List (Nat × Nat)) (dur open_hour close_hour endBd : Nat) :
    Nat → Nat → List Slot → List Slot
  | 0, _, acc => acc
  | fuel + 1, cur, acc =>
    if cur < endBd then
      if 5 ≤ weekday cur then
        sweepF busy dur open_hour close_hour endBd fuel (atHour (cur + daySec) open_hour) acc
      else
        match List.find? (conflict cur (cur + dur * 60)) busy with
        | some b => sweepF busy dur open_hour close_hour endBd fuel (b.2 + 900) acc
        | none =>
          if hourOf (cur + dur * 60) ≤ close_hour then
            sweepF busy dur open_hour close_hour endBd fuel (cur + 1800)
              (acc ++ [⟨cur, cur + dur * 60, dur⟩])
          else
            sweepF busy dur open_hour close_hour endBd fuel (cur + 900) acc
    else acc

/-- The loop, run with the (always sufficient) budget `endBd - cur`. -/
def sweep (busy : List (Nat × Nat)) (dur open_hour close_hour endBd cur : Nat)
    (acc : List Slot) : List Slot :=
  sweepF busy dur open_hour close_hour endBd (endBd - cur) cur acc

/-- `find_free_slots(start_date, end_date, duration_minutes, business_hours)`
after the busy periods have been parsed: initialise the cursor at
`start_date.replace(hour=open_hour, ...)`, bound the loop by
`end_date.replace(hour=close_hour, ...)`, sort the busy intervals, run the
sweep, and return the first 10 slots (`free_slots[:10]`). -/
def find_free_slots (start_date end_date : Nat) (busy_periods : List (Nat × Nat))
    (duration_minutes : Nat) (open_hour close_hour : Nat) : List Slot :=
  (sweep (sortBusy busy_periods) duration_minutes open_hour close_hour
      (atHour end_date close_hour) (atHour start_date open_hour) []).take 10

end Cal

namespace SmartAgent

/-- Python `datetime` value (timezone held fixed by the caller, so omitted):
year 1..9999, month 1..12, day 1..days-in-month, with time of day. -/
structure PyDateTime where
  year : Nat
  month : Nat
  day : Nat
  hour : Nat
  minute : Nat
  second : Nat
  microsecond : Nat
deriving DecidableEq, Repr

/-- Python `datetime` `<` comparison between values in the same timezone:
lexicographic on (year, month, day, hour, minute, second, microsecond). -/
def pyLt (a b : PyDateTime) : Bool :=
  if a.year ≠ b.year then decide (a.year < b.year)
  else if a.month ≠ b.month then decide (a.month < b.month)
  else if a.day ≠ b.day then decide (a.day < b.day)
  else if a.hour ≠ b.hour then decide (a.hour < b.hour)
  else if a.minute ≠ b.minute then decide (a.minute < b.minute)
  else if a.second ≠ b.second then decide (a.second < b.second)
  else decide (a.microsecond < b.microsecond)

/-- Gregorian leap year, as in Python's `calendar.isleap`. -/
def isLeap (y : Nat) : Bool :=
  decide (y % 4 = 0) && (decide (y % 100 ≠ 0) || decide (y % 400 = 0))

def daysInMonth (y m : Nat) : Nat :=
  if m = 2 then (if isLeap y then 29 else 28)
  else if m = 4 ∨ m = 6 ∨ m = 9 ∨ m = 11 then 30
  else 31

/-- The dates Python `datetime` can represent: years 1..9999. -/
def validDate (y m d : Nat) : Bool :=
  decide (1 ≤ y) && decide (y ≤ 9999) && decide (1 ≤ m) && decide (m ≤ 12) &&
    decide (1 ≤ d) && decide (d ≤ daysInMonth y m)

def validDT (t : PyDateTime) : Bool :=
  validDate t.year t.month t.day && decide (t.hour ≤ 23) && decide (t.minute ≤ 59) &&
    decide (t.second ≤ 59) && decide (t.microsecond ≤ 999999)

/-- Days in all years before `y` (CPython `_days_before_year`). -/
def daysBeforeYear (y : Nat) : Nat :=
  365 * (y - 1) + (y - 1) / 4 + (y - 1) / 400 - (y - 1) / 100

/-- Days in the months of `y` strictly before month `m`
(CPython `_days_before_month`). -/
def daysBeforeMonth (y m : Nat) : Nat :=
  let L : Nat := if isLeap y then 1 else 0
  if m = 1 then 0
  else if m = 2 then 31
  else if m = 3 then 59 + L
  else if m = 4 then 90 + L
  else if m = 5 then 120 + L
  else if m = 6 then 151 + L
  else if m = 7 then 181 + L
  else if m = 8 then 212 + L
  else if m = 9 then 243 + L
  else if m = 10 then 273 + L
  else if m = 11 then 304 + L
  else if m = 12 then 334 + L
  else 0

/-- Proleptic-Gregorian ordinal of a date; 0001-01-01 has ordinal 1
(CPython `_ymd2ord`). -/
def toOrdinal (y m d : Nat) : Nat := daysBeforeYear y + daysBeforeMonth y m + d

/-- Python `date.weekday()`: Monday = 0 … Sunday = 6; ordinal 1 is a Monday. -/
def pyWeekday (y m d : Nat) : Nat := (toOrdinal y m d + 6) % 7

def weekdayDT (t : PyDateTime) : Nat := pyWeekday t.year t.month t.day

/-- One calendar day later, keeping the time of day; `none` past 9999-12-31
(where Python raises `OverflowError`). -/
def nextDayO (t : PyDateTime) : Option PyDateTime :=
  if t.day < daysInMonth t.year t.month then some { t with day := t.day + 1 }
  else if t.month < 12 then some { t with month := t.month + 1, day := 1 }
  else if t.year < 9999 then some { t with year := t.year + 1, month := 1, day := 1 }
  else none

/-- `now + timedelta(days = n)`. -/
def addDaysO (t : PyDateTime) : Nat → Option PyDateTime
  | 0 => some t
  | n + 1 => (nextDayO t).bind (fun u => addDaysO u n)

/-- `now.replace(year=y, month=m, day=d, hour=0, minute=0, second=0,
microsecond=0)`; `none` models the `ValueError` raised on an invalid date. -/
def mkDate0 (y m d : Nat) : Option PyDateTime :=
  if validDate y m d then some ⟨y, m, d, 0, 0, 0, 0⟩ else none

/-- `t.replace(hour=0, minute=0, second=0, microsecond=0)`. -/
def dayStart (t : PyDateTime) : PyDateTime :=
  { t with hour := 0, minute := 0, second := 0, microsecond := 0 }

/-- `t.replace(hour=23, minute=59, second=59, microsecond=999999)`. -/
def dayEnd (t : PyDateTime) : PyDateTime :=
  { t with hour := 23, minute := 59, second := 59, microsecond := 999999 }

/-- The resolver's default result: the reference day's full window. -/
def todayWindow (now : PyDateTime) : PyDateTime × PyDateTime := (dayStart now, dayEnd now)

/-- Python's whitespace class: exactly the code points CPython's
`Py_UNICODE_ISSPACE` table flags, i.e. where `str.isspace()` holds, the
text-pattern regex `\s` matches, and `str.strip()` with no argument
strips: U+0009–U+000D, U+001C–U+001F, U+0020, U+0085, U+00A0, U+1680,
U+2000–U+200A, U+2028, U+2029, U+202F, U+205F, U+3000. -/
def isWsC (c : Char) : Bool :=
  let n := c.toNat
  (decide (0x09 ≤ n) && decide (n ≤ 0x0D)) ||
    (decide (0x1C ≤ n) && decide (n ≤ 0x20)) ||
    decide (n = 0x85) || decide (n = 0xA0) || decide (n = 0x1680) ||
    (decide (0x2000 ≤ n) && decide (n ≤ 0x200A)) ||
    decide (n = 0x2028) || decide (n = 0x2029) || decide (n = 0x202F) ||
    decide (n = 0x205F) || decide (n = 0x3000)

/-- The characters on which the remaining lexical pieces of this model are
exact: Python's `str.lower()` coincides with ASCII `Char.toLower`, the
regex `\d` (and `int()`) with the ASCII digits `[0-9]`, and character
identity with itself, precisely when the character is ASCII; whitespace
characters beyond ASCII are also exact because `isWsC` is the full Python
table and they carry no case mapping and are not digits.  Outside this set
Python's Unicode-aware `lower()`/`\d` can recognise material (e.g. U+212A
lowering to `k`, Arabic-Indic digits) that the model does not, so the
resolver theorems below restrict the phrase to it. -/
def plainChar (c : Char) : Bool := decide (c.toNat < 128) || isWsC c

/-- All characters of the phrase lie in the exactly-modelled set. -/
def plainStr (p : List Char) : Bool := p.all plainChar

/-- Does `pat` occur at the head of `s`? -/
def headMatch : List Char → List Char → Bool
  | [], _ => true
  | _ :: _, [] => false
  | a :: as, b :: bs => a == b && headMatch as bs

/-- Python's substring test `pat in s` (contiguous). -/
def subList (pat : List Char) : List Char → Bool
  | [] => pat.isEmpty
  | c :: rest => headMatch pat (c :: rest) || subList pat rest

def skipWs : List Char → List Char
  | [] => []
  | c :: rest => if isWsC c then skipWs rest else c :: rest

/-- `str.lower().strip()` applied to the phrase. -/
def lowerTrim (p : List Char) : List Char :=
  ((skipWs ((p.map Char.toLower).reverse)).reverse |> skipWs)

def digitVal (c : Char) : Nat := c.toNat - '0'.toNat

/-- The month alternation of the source regex, in order, with the month
number each name is mapped to by `month_map` (every alternative is a key of
the map, so the lookup never falls back to `now.month`). -/
def monthAlts : List (List Char × Nat) :=
  [("january".toList, 1), ("february".toList, 2), ("march".toList, 3),
   ("april".toList, 4), ("may".toList, 5), ("june".toList, 6),
   ("july".toList, 7), ("august".toList, 8), ("september".toList, 9),
   ("october".toList, 10), ("november".toList, 11), ("december".toList, 12),
   ("jan".toList, 1), ("feb".toList, 2), ("mar".toList, 3), ("apr".toList, 4),
   ("may".toList, 5), ("jun".toList, 6), ("jul".toList, 7), ("aug".toList, 8),
   ("sep".toList, 9), ("oct".toList, 10), ("nov".toList, 11), ("dec".toList, 12)]

/-- First month-name alternative matching at the head of `s`. -/
def matchMonth (s : List Char) : Option Nat :=
  (monthAlts.find? (fun p => headMatch p.1 s)).map (fun p => p.2)

/-- `\s+` then the month group: at least one whitespace character, then a
month alternative (month names start with letters, so consuming all
whitespace is equivalent to the regex's backtracking). -/
def wsThenMonth : List Char → Option Nat
  | [] => none
  | c :: rest => if isWsC c then matchMonth (skipWs rest) else none

/-- The optional ordinal suffix `(?:st|nd|rd|th)?`. -/
def trySuffix : List Char → Option (List Char)
  | 's' :: 't' :: r => some r
  | 'n' :: 'd' :: r => some r
  | 'r' :: 'd' :: r => some r
  | 't' :: 'h' :: r => some r
  | _ => none

/-- After the day digits: optionally consume the ordinal suffix (with
regex backtracking: if the rest fails after the suffix, retry without), then
whitespace and the month. -/
def afterDay (s : List Char) : Option Nat :=
  match trySuffix s with
  | some s2 =>
    match wsThenMonth s2 with
    | some m => some m
    | none => wsThenMonth s
  | none => wsThenMonth s

/-- Try the pattern `(\d{1,2})(?:st|nd|rd|th)?\s+(month)` anchored at the
head of `s` (greedy: two digits before one), returning (day, month). -/
def tryAt : List Char → Option (Nat × Nat)
  | [] => none
  | c1 :: rest1 =>
    if c1.isDigit then
      match rest1 with
      | c2 :: rest2 =>
        if c2.isDigit then
          match afterDay rest2 with
          | some m => some (10 * digitVal c1 + digitVal c2, m)
          | none =>
            match afterDay rest1 with
            | some m => some (digitVal c1, m)
            | none => none
        else
          match afterDay rest1 with
          | some m => some (digitVal c1, m)
          | none => none
      | [] => none
    else none

/-- `re.search` of the day-and-month pattern: leftmost match wins. -/
def dateSearch : List Char → Option (Nat × Nat)
  | [] => none
  | c :: rest =>
    match tryAt (c :: rest) with
    | some r => some r
    | none => dateSearch rest

/-- The weekday names, in the order the source iterates them. -/
def dayNames : List (List Char) :=
  ["monday".toList, "tuesday".toList, "wednesday".toList, "thursday".toList,
   "friday".toList, "saturday".toList, "sunday".toList]

def firstWeekdayAux : List (List Char) → Nat → List Char → Option Nat
  | [], _, _ => none
  | n :: ns, i, p => if subList n p then some i else firstWeekdayAux ns (i + 1) p

/-- Index of the first weekday name contained in the phrase (the source's
`for i, day_name in enumerate(day_names): if day_name in date_preference`). -/
def firstWeekday (p : List Char) : Option Nat := firstWeekdayAux dayNames 0 p

/-- `days_ahead`: `(i - now.weekday()) % 7`, bumped to 7 when zero and the
phrase says "next" or the reference hour is ≥ 17.  (`weekdayDT now < 7`, so
the `Nat` form `(7 + i - w) % 7` agrees with Python's signed `%`.) -/
def dayOffset (now : PyDateTime) (p : List Char) (i : Nat) : Nat :=
  let off0 := (7 + i - weekdayDT now) % 7
  if off0 = 0 then
    if subList ("next".toList) p then 7
    else if 17 ≤ now.hour then 7
    else 0
  else off0

/-- The explicit-date branch: `now.replace(year, month, day, midnight)`,
rolled to next year when already past; on `ValueError` (invalid date, or
rollover to year 10000) fall back to the first of the month, likewise rolled;
`none` when the fallback's own rollover raises (escapes to the outer
handler). -/
def explicitTarget (now : PyDateTime) (d m : Nat) : Option PyDateTime :=
  let y := now.year
  let tb : Option PyDateTime :=
    match mkDate0 y m d with
    | some t => if pyLt t now then mkDate0 (y + 1) m d else some t
    | none => none
  match tb with
  | some t => some t
  | none =>
    match mkDate0 y m 1 with
    | some t => if pyLt t now then mkDate0 (y + 1) m 1 else some t
    | none => none

/-- The body of `_parse_smart_date` on the lowercased, stripped phrase:
the cascade of rules in source order.  `none` models an exception escaping
to the outer `except` handler. -/
def parseBody (now : PyDateTime) (p : List Char) : Option (PyDateTime × PyDateTime) :=
  match dateSearch p with
  | some dm =>
    match explicitTarget now dm.1 dm.2 with
    | some t => some (dayStart t, dayEnd t)
    | none => none
  | none =>
    if subList ("today".toList) p then some (todayWindow now)
    else if subList ("tomorrow".toList) p then
      match addDaysO now 1 with
      | some t => some (dayStart t, dayEnd t)
      | none => none
    else if subList ("next week".toList) p then
      match addDaysO now 7 with
      | some t => some (dayStart t, dayEnd t)
      | none => none
    else
      match firstWeekday p with
      | some i =>
        match addDaysO now (dayOffset now p i) with
        | some t => some (dayStart t, dayEnd t)
        | none => none
      | none => some (todayWindow now)

/-- `_parse_smart_date(date_preference)` with `now = self.current_time`:
normalise the phrase, run the rule cascade, and on any internal exception
fall back to the reference day's window. -/
def parseSmartDate (now : PyDateTime) (phrase : List Char) : PyDateTime × PyDateTime :=
  match parseBody now (lowerTrim phrase) with
  | some w => w
  | none => todayWindow now

/-- No rule applies to the (normalised) phrase: no day-and-month match, none
of the literal keywords, no weekday name. -/
def noPattern (p : List Char) : Bool :=
  (dateSearch p).isNone && !(subList ("today".toList) p) &&
    !(subList ("tomorrow".toList) p) && !(subList ("next week".toList) p) &&
    (firstWeekday p).isNone

end SmartAgent

namespace Cal

theorem lt_atHour_next (cur h : Nat) : cur < atHour (cur + daySec) h := by
  unfold atHour daySec
  rw [Nat.add_div_right _ (by norm_num)]
  have h1 := Nat.div_add_mod cur 86400
  have h2 : cur % 86400 < 86400 := Nat.mod_lt cur (by norm_num)
  omega

/-- In every branch of the loop body the cursor strictly increases. -/
theorem conflict_cursor_lt {cur slotEnd : Nat} {b : Nat × Nat}
    {busy : List (Nat × Nat)}
    (hf : List.find? (conflict cur slotEnd) busy = some b) : cur < b.2 := by
  have hb := List.find?_some hf
  unfold conflict at hb
  simp only [Bool.and_eq_true, decide_eq_true_eq] at hb
  exact hb.1

/-- Any two sufficient budgets give the same result: the loop is independent
of the fuel device. -/
theorem sweepF_irrel (busy : List (Nat × Nat)) (dur open_hour close_hour endBd : Nat) :
    ∀ f1 f2 cur acc, endBd - cur ≤ f1 → endBd - cur ≤ f2 →
      sweepF busy dur open_hour close_hour endBd f1 cur acc =
        sweepF busy dur open_hour close_hour endBd f2 cur acc := by
  intro f1
  induction f1 with
  | zero =>
    intro f2 cur acc h1 h2
    have hstop : ¬ cur < endBd := by omega
    cases f2 with
    | zero => rfl
    | succ g => simp [sweepF, hstop]
  | succ f ih =>
    intro f2 cur acc h1 h2
    cases f2 with
    | zero =>
      have hstop : ¬ cur < endBd := by omega
      simp [sweepF, hstop]
    | succ g =>
      by_cases hlt : cur < endBd
      · rw [sweepF, sweepF]
        simp only [if_pos hlt]
        by_cases hwk : 5 ≤ weekday cur
        · simp only [if_pos hwk]
          have := lt_atHour_next cur open_hour
          exact ih g _ _ (by omega) (by omega)
        · simp only [if_neg hwk]
          cases hf : List.find? (conflict cur (cur + dur * 60)) busy with
          | some b =>
            have := conflict_cursor_lt hf
            exact ih g _ _ (by omega) (by omega)
          | none =>
            by_cases hcl : hourOf (cur + dur * 60) ≤ close_hour
            · simp only [if_pos hcl]
              exact ih g _ _ (by omega) (by omega)
            · simp only [if_neg hcl]
              exact ih g _ _ (by omega) (by omega)
      · rw [sweepF, sweepF]
        simp [hlt]

theorem sweep_stop {busy : List (Nat × Nat)} {dur open_hour close_hour endBd cur : Nat}
    {acc : List Slot} (h1 : ¬ cur < endBd) :
    sweep busy dur open_hour close_hour endBd cur acc = acc := by
  unfold sweep
  have h0 : endBd - cur = 0 := by omega
  rw [h0, sweepF]

theorem sweep_weekend {busy : List (Nat × Nat)} {dur open_hour close_hour endBd cur : Nat}
    {acc : List Slot} (h1 : cur < endBd) (h2 : 5 ≤ weekday cur) :
    sweep busy dur open_hour close_hour endBd cur acc =
      sweep busy dur open_hour close_hour endBd (atHour (cur + daySec) open_hour) acc := by
  unfold sweep
  obtain ⟨k, hk⟩ : ∃ k, endBd - cur = k + 1 := ⟨endBd - cur - 1, by omega⟩
  rw [hk, sweepF]
  simp only [if_pos h1, if_pos h2]
  have := lt_atHour_next cur open_hour
  exact sweepF_irrel _ _ _ _ _ _ _ _ _ (by omega) (by omega)

theorem sweep_conflict {busy : List (Nat × Nat)} {dur open_hour close_hour endBd cur : Nat}
    {acc : List Slot} {b : Nat × Nat} (h1 : cur < endBd) (h2 : ¬ 5 ≤ weekday cur)
    (hf : List.find? (conflict cur (cur + dur * 60)) busy = some b) :
    sweep busy dur open_hour close_hour endBd cur acc =
      sweep busy dur open_hour close_hour endBd (b.2 + 900) acc := by
  unfold sweep
  obtain ⟨k, hk⟩ : ∃ k, endBd - cur = k + 1 := ⟨endBd - cur - 1, by omega⟩
  rw [hk, sweepF]
  simp only [if_pos h1, if_neg h2, hf]
  have := conflict_cursor_lt hf
  exact sweepF_irrel _ _ _ _ _ _ _ _ _ (by omega) (by omega)

theorem sweep_emit {busy : List (Nat × Nat)} {dur open_hour close_hour endBd cur : Nat}
    {acc : List Slot} (h1 : cur < endBd) (h2 : ¬ 5 ≤ weekday cur)
    (hf : List.find? (conflict cur (cur + dur * 60)) busy = none)
    (h3 : hourOf (cur + dur * 60) ≤ close_hour) :
    sweep busy dur open_hour close_hour endBd cur acc =
      sweep busy dur open_hour close_hour endBd (cur + 1800)
        (acc ++ [⟨cur, cur + dur * 60, dur⟩]) := by
  unfold sweep
  obtain ⟨k, hk⟩ : ∃ k, endBd - cur = k + 1 := ⟨endBd - cur - 1, by omega⟩
  rw [hk, sweepF]
  simp only [if_pos h1, if_neg h2, hf, if_pos h3]
  exact sweepF_irrel _ _ _ _ _ _ _ _ _ (by omega) (by omega)

theorem sweep_skip {busy : List (Nat × Nat)} {dur open_hour close_hour endBd cur : Nat}
    {acc : List Slot} (h1 : cur < endBd) (h2 : ¬ 5 ≤ weekday cur)
    (hf : List.find? (conflict cur (cur + dur * 60)) busy = none)
    (h3 : ¬ hourOf (cur + dur * 60) ≤ close_hour) :
    sweep busy dur open_hour close_hour endBd cur acc =
      sweep busy dur open_hour close_hour endBd (cur + 900) acc := by
  unfold sweep
  obtain ⟨k, hk⟩ : ∃ k, endBd - cur = k + 1 := ⟨endBd - cur - 1, by omega⟩
  rw [hk, sweepF]
  simp only [if_pos h1, if_neg h2, hf, if_neg h3]
  exact sweepF_irrel _ _ _ _ _ _ _ _ _ (by omega) (by omega)

/-- Invariant of the sweep loop: every slot in the output was either already
in the accumulator or was emitted at some later cursor position, weekday
checked, hour-of-end checked, with no busy interval conflicting. -/
theorem sweepF_mem (busy : List (Nat × Nat)) (dur open_hour close_hour endBd : Nat) :
    ∀ (fuel cur : Nat) (acc : List Slot) (s : Slot),
      s ∈ sweepF busy dur open_hour close_hour endBd fuel cur acc →
      s ∈ acc ∨ (cur ≤ s.start ∧ weekday s.start < 5 ∧
        s.stop = s.start + dur * 60 ∧ s.duration_minutes = dur ∧
        hourOf (s.start + dur * 60) ≤ close_hour ∧
        List.find? (conflict s.start (s.start + dur * 60)) busy = none) := by
  intro fuel
  induction fuel with
  | zero =>
    intro cur acc s hs
    exact Or.inl hs
  | succ fuel ih =>
    intro cur acc s hs
    rw [sweepF] at hs
    by_cases h1 : cur < endBd
    · rw [if_pos h1] at hs
      by_cases h2 : 5 ≤ weekday cur
      · rw [if_pos h2] at hs
        rcases ih _ _ _ hs with h | h
        · exact Or.inl h
        · refine Or.inr ⟨?_, h.2⟩
          have := lt_atHour_next cur open_hour
          omega
      · rw [if_neg h2] at hs
        cases hf : List.find? (conflict cur (cur + dur * 60)) busy with
        | some b =>
          rw [hf] at hs
          rcases ih _ _ _ hs with h | h
          · exact Or.inl h
          · refine Or.inr ⟨?_, h.2⟩
            have := conflict_cursor_lt hf
            omega
        | none =>
          rw [hf] at hs
          by_cases h3 : hourOf (cur + dur * 60) ≤ close_hour
          · rw [if_pos h3] at hs
            rcases ih _ _ _ hs with h | h
            · rw [List.mem_append] at h
              rcases h with h | h
              · exact Or.inl h
              · simp only [List.mem_singleton] at h
                subst h
                exact Or.inr ⟨Nat.le_refl _, by simpa using Nat.lt_of_not_le h2, rfl, rfl, h3, hf⟩
            · refine Or.inr ⟨?_, h.2⟩
              omega
          · rw [if_neg h3] at hs
            rcases ih _ _ _ hs with h | h
            · exact Or.inl h
            · refine Or.inr ⟨?_, h.2⟩
              omega
    · rw [if_neg h1] at hs
      exact Or.inl hs

/-- The loop invariant stated for `sweep`. -/
theorem sweep_mem (busy : List (Nat × Nat)) (dur open_hour close_hour endBd : Nat)
    (cur : Nat) (acc : List Slot) (s : Slot) :
    s ∈ sweep busy dur open_hour close_hour endBd cur acc →
      s ∈ acc ∨ (cur ≤ s.start ∧ weekday s.start < 5 ∧
        s.stop = s.start + dur * 60 ∧ s.duration_minutes = dur ∧
        hourOf (s.start + dur * 60) ≤ close_hour ∧
        List.find? (conflict s.start (s.start + dur * 60)) busy = none) :=
  sweepF_mem busy dur open_hour close_hour endBd (endBd - cur) cur acc s

theorem mem_insertBusy (x a : Nat × Nat) (l : List (Nat × Nat)) :
    a ∈ insertBusy x l ↔ a = x ∨ a ∈ l := by
  induction l with
  | nil => simp [insertBusy]
  | cons y ys ih =>
    unfold insertBusy
    split
    · simp
    · simp only [List.mem_cons, ih]
      tauto

theorem mem_sortBusy (a : Nat × Nat) (l : List (Nat × Nat)) :
    a ∈ sortBusy l ↔ a ∈ l := by
  induction l with
  | nil => simp [sortBusy]
  | cons x xs ih =>
    unfold sortBusy
    rw [mem_insertBusy, ih]
    simp

/-- The invariant, transported through `sortBusy` and `List.take`, at the top
level of `find_free_slots`. -/
theorem find_free_slots_mem (start_date end_date : Nat) (busy_periods : List (Nat × Nat))
    (duration_minutes open_hour close_hour : Nat) (s : Slot)
    (hs : s ∈ find_free_slots start_date end_date busy_periods duration_minutes
      open_hour close_hour) :
    atHour start_date open_hour ≤ s.start ∧ weekday s.start < 5 ∧
      s.stop = s.start + duration_minutes * 60 ∧ s.duration_minutes = duration_minutes ∧
      hourOf (s.start + duration_minutes * 60) ≤ close_hour ∧
      ∀ b ∈ busy_periods, conflict s.start (s.start + duration_minutes * 60) b = false := by
  unfold find_free_slots at hs
  have hs2 := List.take_subset 10 _ hs
  rcases sweep_mem _ _ _ _ _ _ _ _ hs2 with h | h
  · simp at h
  · refine ⟨h.1, h.2.1, h.2.2.1, h.2.2.2.1, h.2.2.2.2.1, ?_⟩
    intro b hb
    have hb2 : b ∈ sortBusy busy_periods := (mem_sortBusy b _).mpr hb
    have := List.find?_eq_none.mp h.2.2.2.2.2 b hb2
    simpa using this

/-- C1: for every window, every list of (parsed) busy intervals and every
positive duration, no returned slot overlaps any busy interval:
`NOT (S.start < B.end AND S.end > B.start)`.  Confirmed: a slot is emitted
only when `List.find?` finds no conflicting busy interval, and the conflict
test is exactly the overlap formula. -/
theorem c1_no_overlap (start_date end_date : Nat) (busy_periods : List (Nat × Nat))
    (duration_minutes open_hour close_hour : Nat) (hdur : 0 < duration_minutes)
    (s : Slot)
    (hs : s ∈ find_free_slots start_date end_date busy_periods duration_minutes
      open_hour close_hour)
    (b : Nat × Nat) (hb : b ∈ busy_periods) :
    ¬ (s.start < b.2 ∧ s.stop > b.1) := by
  have h := find_free_slots_mem start_date end_date busy_periods duration_minutes
    open_hour close_hour s hs
  have hc := h.2.2.2.2.2 b hb
  unfold conflict at hc
  rw [h.2.2.1]
  simp only [Bool.and_eq_false_iff, decide_eq_false_iff_not, gt_iff_lt] at hc
  tauto

/-- Witness for C1 at a concrete input: window = Monday, busy interval
00:00–01:00, duration 60; the slot 09:00–10:00 is returned and indeed does
not overlap the busy interval. -/
theorem c1_witness : ¬ ((32400 : Nat) < 3600 ∧ (36000 : Nat) > 0) :=
  c1_no_overlap 0 0 [(0, 3600)] 60 9 17 (by decide) ⟨32400, 36000, 60⟩ (by decide)
    (0, 3600) (by decide)

/-- C6: no returned slot starts on a Saturday (weekday 5) or Sunday
(weekday 6).  Confirmed: each loop iteration re-checks
`current_time.weekday() >= 5` before a slot can be emitted in that same
iteration. -/
theorem c6_no_weekend (start_date end_date : Nat) (busy_periods : List (Nat × Nat))
    (duration_minutes open_hour close_hour : Nat) (hdur : 0 < duration_minutes)
    (s : Slot)
    (hs : s ∈ find_free_slots start_date end_date busy_periods duration_minutes
      open_hour close_hour) :
    ¬ (weekday s.start = 5 ∨ weekday s.start = 6) := by
  have h := find_free_slots_mem start_date end_date busy_periods duration_minutes
    open_hour close_hour s hs
  omega

/-- Witness for C6 at a concrete input. -/
theorem c6_witness : ¬ (weekday 32400 = 5 ∨ weekday 32400 = 6) :=
  c6_no_weekend 0 0 [] 60 9 17 (by decide) ⟨32400, 36000, 60⟩ (by decide)

/-- C3 fails on the code: the emission guard is `slot_end.hour <= close_hour`,
which admits slots ending up to 59 minutes past close (here 16:45–17:45 with
close 17), and after a busy interval ending off-hours the cursor can sit
before the opening hour (here a slot starting Tuesday 02:15 with open 9). -/
theorem c3_counterexample :
    (∃ s ∈ find_free_slots 0 0 [(32400, 59400)] 60 9 17,
      atHour s.start 17 < s.stop) ∧
    (∃ s ∈ find_free_slots 0 86400 [(32400, 93600)] 60 9 17,
      s.start < atHour s.start 9) := by decide

/-- C3 amended: every returned slot's end falls at an hour-of-day at most
`close_hour` (so strictly before `close_hour + 1`:00); the code gives no
further business-hours guarantee — a slot may end up to 59 minutes past
close, and may start before the opening hour. -/
theorem c3_theorem (start_date end_date : Nat) (busy_periods : List (Nat × Nat))
    (duration_minutes open_hour close_hour : Nat) (hdur : 0 < duration_minutes)
    (s : Slot)
    (hs : s ∈ find_free_slots start_date end_date busy_periods duration_minutes
      open_hour close_hour) :
    hourOf s.stop ≤ close_hour := by
  have h := find_free_slots_mem start_date end_date busy_periods duration_minutes
    open_hour close_hour s hs
  rw [h.2.2.1]
  exact h.2.2.2.2.1

/-- Witness for C3's amended theorem at a concrete input. -/
theorem c3_witness : hourOf (36000 : Nat) ≤ 17 :=
  c3_theorem 0 0 [] 60 9 17 (by decide) ⟨32400, 36000, 60⟩ (by decide)

/-- C5 fails on the code: the cursor is initialised to
`start_date.replace(hour=open_hour)` with no `max` against the window start,
so for a window starting Monday 14:00 the first returned slot starts 09:00,
before the window start. -/
theorem c5_counterexample :
    ∃ s ∈ find_free_slots 50400 50400 [] 60 9 17, s.start < 50400 := by decide

/-- C5 amended: the cursor starts at `window.start` with the time of day
replaced by `open_hour`:00 (not the max of that and `window.start`), so every
returned slot starts at or after `atHour window.start open_hour`; a slot may
start before `window.start` itself whenever the window starts after the
opening hour. -/
theorem c5_theorem (start_date end_date : Nat) (busy_periods : List (Nat × Nat))
    (duration_minutes open_hour close_hour : Nat) (hdur : 0 < duration_minutes)
    (s : Slot)
    (hs : s ∈ find_free_slots start_date end_date busy_periods duration_minutes
      open_hour close_hour) :
    atHour start_date open_hour ≤ s.start :=
  (find_free_slots_mem start_date end_date busy_periods duration_minutes
    open_hour close_hour s hs).1

/-- Witness for C5's amended theorem at a concrete input. -/
theorem c5_witness : atHour 50400 9 ≤ 32400 :=
  c5_theorem 50400 50400 [] 60 9 17 (by decide) ⟨32400, 36000, 60⟩ (by decide)

/-- C7 fails on the code: with `start = end =` Monday 07:00 the derived loop
bounds are Monday 09:00 to Monday 17:00, so slots are still emitted although
`window.start >= window.end`. -/
theorem c7_counterexample :
    (25200 : Nat) ≥ 25200 ∧ find_free_slots 25200 25200 [] 60 9 17 ≠ [] := by decide

/-- C7 amended: the empty result is governed by the derived business-hour
bounds rather than the raw window: whenever
`end_date.replace(hour=close) <= start_date.replace(hour=open)` the loop
guard fails at once and the returned sequence is empty.  A window with
`start >= end` can still produce slots when the hour replacement reorders
the two bounds.  The original claim's "does not raise" part is not
established: the source can raise `OverflowError` when cursor arithmetic
passes `datetime.max` (see the caveat on `sweepF`), an error path outside
this model; in the empty case proved here no cursor arithmetic runs. -/
theorem c7_theorem (start_date end_date : Nat) (busy_periods : List (Nat × Nat))
    (duration_minutes open_hour close_hour : Nat)
    (h : atHour end_date close_hour ≤ atHour start_date open_hour) :
    find_free_slots start_date end_date busy_periods duration_minutes
      open_hour close_hour = [] := by
  unfold find_free_slots
  rw [sweep_stop (by omega)]
  rfl

/-- Witness for C7's amended theorem: window from Tuesday back to Monday. -/
theorem c7_witness : find_free_slots 86400 0 [] 60 9 17 = [] :=
  c7_theorem 86400 0 [] 60 9 17 (by decide)

/-- C2 fails on the code: after a conflict the cursor is set to the busy
interval's end and then — because control falls through to the non-emission
`else` arm — advanced a further 15 minutes, so in the stated scenario
(Monday, busy 10:00–11:00, duration 60) the slot 11:00–12:00 is never
returned (11:15–12:15 is returned instead). -/
theorem c2_counterexample :
    ¬ ∃ s ∈ find_free_slots 0 86399 [(36000, 39600)] 60 9 17,
      s.start = 39600 ∧ s.stop = 43200 := by decide

/-- C2 amended: on a conflict no slot is emitted and the cursor advances to
the conflicting interval's end **plus 15 minutes** before the loop restarts;
consequently, for the scenario (one weekday, busy 10:00–11:00, duration 60)
the returned slots exclude every start in [09:30, 11:00) and include
11:15–12:15 rather than 11:00–12:00. -/
theorem c2_theorem :
    (∀ (busy : List (Nat × Nat)) (dur open_hour close_hour endBd cur : Nat)
        (acc : List Slot) (b : Nat × Nat),
      cur < endBd → weekday cur < 5 →
      List.find? (conflict cur (cur + dur * 60)) busy = some b →
      sweep busy dur open_hour close_hour endBd cur acc =
        sweep busy dur open_hour close_hour endBd (b.2 + 900) acc) ∧
    (∀ s ∈ find_free_slots 0 86399 [(36000, 39600)] 60 9 17,
      ¬ (34200 ≤ s.start ∧ s.start < 39600)) ∧
    (⟨40500, 44100, 60⟩ : Slot) ∈ find_free_slots 0 86399 [(36000, 39600)] 60 9 17 := by
  refine ⟨?_, by decide, by decide⟩
  intro busy dur open_hour close_hour endBd cur acc b h1 h2 hf
  exact sweep_conflict h1 (by omega) hf

/-- Witness for C2's amended theorem: the conflict step at 09:30 against the
busy interval 10:00–11:00 moves the cursor to 11:15 (= 11:00 + 15 min). -/
theorem c2_witness :
    sweep [(36000, 39600)] 60 9 17 61200 34200 [] =
      sweep [(36000, 39600)] 60 9 17 61200 40500 [] :=
  c2_theorem.1 [(36000, 39600)] 60 9 17 61200 34200 [] (36000, 39600)
    (by decide) (by decide) (by decide)

/-- C4: with no busy intervals over a single business weekday, duration 60
and business hours (9, 17), the returned slots start exactly at 09:00 and
every 30 minutes thereafter, and the last returned start (13:30, the list
being capped at 10 slots) is at or before 16:00.  Confirmed on the literal
reading; note the 10-slot cap documented elsewhere in the spec truncates
the progression at 13:30. -/
theorem c4_theorem :
    (find_free_slots 0 86399 [] 60 9 17).map Slot.start =
      (List.range 10).map (fun k => 32400 + 1800 * k) ∧
    (∀ s ∈ find_free_slots 0 86399 [] 60 9 17, s.start ≤ 57600) := by decide

end Cal

namespace SmartAgent

theorem isLeap_iff (y : Nat) :
    isLeap y = true ↔ (y % 4 = 0 ∧ (y % 100 ≠ 0 ∨ y % 400 = 0)) := by
  unfold isLeap
  simp [Bool.and_eq_true, Bool.or_eq_true, decide_eq_true_eq]

theorem validDate_iff (y m d : Nat) :
    validDate y m d = true ↔ (1 ≤ y ∧ y ≤ 9999 ∧ 1 ≤ m ∧ m ≤ 12 ∧ 1 ≤ d ∧
      d ≤ daysInMonth y m) := by
  unfold validDate
  simp only [Bool.and_eq_true, decide_eq_true_eq]
  tauto

theorem validDT_iff (t : PyDateTime) :
    validDT t = true ↔ (1 ≤ t.year ∧ t.year ≤ 9999 ∧ 1 ≤ t.month ∧ t.month ≤ 12 ∧
      1 ≤ t.day ∧ t.day ≤ daysInMonth t.year t.month ∧ t.hour ≤ 23 ∧
      t.minute ≤ 59 ∧ t.second ≤ 59 ∧ t.microsecond ≤ 999999) := by
  unfold validDT
  rw [Bool.and_eq_true, Bool.and_eq_true, Bool.and_eq_true, Bool.and_eq_true,
    validDate_iff]
  simp only [decide_eq_true_eq]
  tauto

theorem daysInMonth_bounds (y m : Nat) : 28 ≤ daysInMonth y m ∧ daysInMonth y m ≤ 31 := by
  unfold daysInMonth
  split_ifs <;> omega

theorem daysBeforeMonth_succ (y m : Nat) (h1 : 1 ≤ m) (h2 : m ≤ 11) :
    daysBeforeMonth y (m + 1) = daysBeforeMonth y m + daysInMonth y m := by
  interval_cases m <;> simp [daysBeforeMonth, daysInMonth] <;> split_ifs <;> omega

theorem daysBeforeMonth_twelve (y : Nat) :
    daysBeforeMonth y 12 = 334 + (if isLeap y then 1 else 0) := by
  simp [daysBeforeMonth]

theorem daysBeforeYear_succ (y : Nat) (hy : 1 ≤ y) :
    daysBeforeYear (y + 1) = daysBeforeYear y + 365 + (if isLeap y then 1 else 0) := by
  obtain ⟨n, rfl⟩ : ∃ n, y = n + 1 := ⟨y - 1, by omega⟩
  unfold daysBeforeYear
  simp only [Nat.add_sub_cancel]
  by_cases hl : isLeap (n + 1) = true
  · rw [if_pos hl]
    rw [isLeap_iff] at hl
    rcases hl with ⟨h4, h100 | h400⟩
    · have e4 : (n + 1) / 4 = n / 4 + 1 := by omega
      have e100 : (n + 1) / 100 = n / 100 := by omega
      have e400 : (n + 1) / 400 = n / 400 := by omega
      rw [e4, e100, e400]
      clear e4 e100 e400 h4 h100
      have hr : n / 100 ≤ n := Nat.div_le_self n 100
      revert hr
      generalize n / 4 = p
      generalize n / 400 = q
      generalize n / 100 = r
      intro hr
      omega
    · have h100 : (n + 1) % 100 = 0 := by omega
      have e4 : (n + 1) / 4 = n / 4 + 1 := by omega
      have e100 : (n + 1) / 100 = n / 100 + 1 := by omega
      have e400 : (n + 1) / 400 = n / 400 + 1 := by omega
      rw [e4, e100, e400]
      clear e4 e100 e400 h4 h100 h400
      have hr : n / 100 ≤ n := Nat.div_le_self n 100
      revert hr
      generalize n / 4 = p
      generalize n / 400 = q
      generalize n / 100 = r
      intro hr
      omega
  · rw [if_neg hl]
    rw [isLeap_iff] at hl
    by_cases h4 : (n + 1) % 4 = 0
    · have h100 : (n + 1) % 100 = 0 := by
        by_contra hc
        exact hl ⟨h4, Or.inl hc⟩
      have h400 : (n + 1) % 400 ≠ 0 := by
        intro hc
        exact hl ⟨h4, Or.inr hc⟩
      have e4 : (n + 1) / 4 = n / 4 + 1 := by omega
      have e100 : (n + 1) / 100 = n / 100 + 1 := by omega
      have e400 : (n + 1) / 400 = n / 400 := by omega
      rw [e4, e100, e400]
      clear e4 e100 e400 h4 h100 h400 hl
      have hr : n / 100 ≤ n := Nat.div_le_self n 100
      revert hr
      generalize n / 4 = p
      generalize n / 400 = q
      generalize n / 100 = r
      intro hr
      omega
    · have e4 : (n + 1) / 4 = n / 4 := by omega
      have e100 : (n + 1) / 100 = n / 100 := by omega
      have e400 : (n + 1) / 400 = n / 400 := by omega
      rw [e4, e100, e400]
      clear e4 e100 e400 h4 hl
      have hr : n / 100 ≤ n := Nat.div_le_self n 100
      revert hr
      generalize n / 4 = p
      generalize n / 400 = q
      generalize n / 100 = r
      intro hr
      omega

theorem daysBeforeYear_mono (a b : Nat) (h1 : 1 ≤ a) (h2 : a ≤ b) :
    daysBeforeYear a ≤ daysBeforeYear b := by
  induction b with
  | zero => omega
  | succ k ih =>
    by_cases hak : a = k + 1
    · subst hak
      exact Nat.le_refl _
    · have hk : 1 ≤ k := by omega
      have h3 := ih (by omega)
      have h4 := daysBeforeYear_succ k hk
      split_ifs at h4 <;> omega

theorem nextDayO_spec (t : PyDateTime) (hv : validDT t = true)
    (hlt : toOrdinal t.year t.month t.day < 3652059) :
    ∃ u, nextDayO t = some u ∧ validDT u = true ∧
      toOrdinal u.year u.month u.day = toOrdinal t.year t.month t.day + 1 ∧
      u.hour = t.hour ∧ u.minute = t.minute ∧ u.second = t.second ∧
      u.microsecond = t.microsecond := by
  obtain ⟨y, m, d, hh, mi, sec, us⟩ := t
  rw [validDT_iff] at hv
  simp only at hv
  obtain ⟨hy1, hy2, hm1, hm2, hd1, hd2, hh1, hmi, hs1, hus⟩ := hv
  unfold nextDayO
  simp only
  by_cases hd : d < daysInMonth y m
  · rw [if_pos hd]
    refine ⟨_, rfl, ?_, ?_, rfl, rfl, rfl, rfl⟩
    · rw [validDT_iff]
      simp only
      exact ⟨hy1, hy2, hm1, hm2, by omega, by omega, hh1, hmi, hs1, hus⟩
    · unfold toOrdinal
      simp only
      omega
  · by_cases hm : m < 12
    · rw [if_neg hd, if_pos hm]
      have h28 := daysInMonth_bounds y (m + 1)
      refine ⟨_, rfl, ?_, ?_, rfl, rfl, rfl, rfl⟩
      · rw [validDT_iff]
        simp only
        exact ⟨hy1, hy2, by omega, by omega, by omega, by omega, hh1, hmi, hs1, hus⟩
      · unfold toOrdinal
        simp only
        rw [daysBeforeMonth_succ y m hm1 (by omega)]
        omega
    · by_cases hy : y < 9999
      · rw [if_neg hd, if_neg hm, if_pos hy]
        have hm12 : m = 12 := by omega
        subst hm12
        have hd31 : d = 31 := by
          have h31 : daysInMonth y 12 = 31 := by simp [daysInMonth]
          omega
        subst hd31
        have h31a : daysInMonth (y + 1) 1 = 31 := by simp [daysInMonth]
        refine ⟨_, rfl, ?_, ?_, rfl, rfl, rfl, rfl⟩
        · rw [validDT_iff]
          simp only
          exact ⟨by omega, by omega, by omega, by omega, by omega, by omega, hh1, hmi, hs1, hus⟩
        · unfold toOrdinal
          simp only
          have hbs := daysBeforeYear_succ y hy1
          have hbm := daysBeforeMonth_twelve y
          have hbm1 : daysBeforeMonth (y + 1) 1 = 0 := by simp [daysBeforeMonth]
          split_ifs at hbs hbm <;> omega
      · exfalso
        have hy9 : y = 9999 := by omega
        have hm12 : m = 12 := by omega
        subst hy9
        subst hm12
        have hd31 : d = 31 := by
          have h31 : daysInMonth 9999 12 = 31 := by decide
          omega
        subst hd31
        simp only at hlt
        have hord : toOrdinal 9999 12 31 = 3652059 := by decide
        omega

theorem addDaysO_spec (n : Nat) : ∀ (t : PyDateTime), validDT t = true →
    toOrdinal t.year t.month t.day + n ≤ 3652059 →
    ∃ u, addDaysO t n = some u ∧ validDT u = true ∧
      toOrdinal u.year u.month u.day = toOrdinal t.year t.month t.day + n ∧
      u.hour = t.hour ∧ u.minute = t.minute ∧ u.second = t.second ∧
      u.microsecond = t.microsecond := by
  induction n with
  | zero =>
    intro t hv _
    exact ⟨t, rfl, hv, by omega, rfl, rfl, rfl, rfl⟩
  | succ k ih =>
    intro t hv hb
    obtain ⟨u, hu, hvu, hord, huh, hum, hus2, huus⟩ := nextDayO_spec t hv (by omega)
    obtain ⟨w, hw, hvw, hordw, hwh, hwm, hws, hwus⟩ := ih u hvu (by omega)
    refine ⟨w, ?_, hvw, by omega, by omega, by omega, by omega, by omega⟩
    show (nextDayO t).bind (fun v => addDaysO v k) = some w
    rw [hu]
    exact hw

theorem dBM_add_day_le (y m d : Nat) (h1 : 1 ≤ m) (h2 : m ≤ 12)
    (h3 : d ≤ daysInMonth y m) :
    daysBeforeMonth y m + d ≤ 365 + (if isLeap y then 1 else 0) := by
  interval_cases m <;> by_cases hL : isLeap y = true <;>
    simp [daysBeforeMonth, daysInMonth, hL] at h3 ⊢ <;> omega

theorem toOrdinal_bound (t : PyDateTime) (hv : validDT t = true)
    (hy : t.year ≤ 9998) :
    toOrdinal t.year t.month t.day + 7 ≤ 3652059 := by
  obtain ⟨y, m, d, hh, mi, sec, us⟩ := t
  rw [validDT_iff] at hv
  simp only at hv
  obtain ⟨hy1, hy2, hm1, hm2, hd1, hd2, hh1, hmi, hs1, hus⟩ := hv
  simp only at hy
  have hdm := dBM_add_day_le y m d hm1 hm2 hd2
  have hsy := daysBeforeYear_succ y hy1
  have hmono := daysBeforeYear_mono (y + 1) 9999 (by omega) (by omega)
  have h9999 : daysBeforeYear 9999 = 3651694 := by decide
  unfold toOrdinal
  simp only
  split_ifs at hdm hsy <;> omega

theorem firstWeekdayAux_bound (ns : List (List Char)) :
    ∀ (k : Nat) (p : List Char) (i : Nat),
      firstWeekdayAux ns k p = some i → k ≤ i ∧ i < k + ns.length := by
  induction ns with
  | nil =>
    intro k p i h
    cases h
  | cons n ns ih =>
    intro k p i h
    unfold firstWeekdayAux at h
    split at h
    · cases h
      simp only [List.length_cons]
      omega
    · have := ih (k + 1) p i h
      simp only [List.length_cons]
      omega

theorem firstWeekday_bound (p : List Char) (i : Nat)
    (h : firstWeekday p = some i) : i ≤ 6 := by
  have := firstWeekdayAux_bound dayNames 0 p i h
  simp [dayNames] at this
  omega

theorem matchMonth_bound (s : List Char) (m : Nat)
    (h : matchMonth s = some m) : 1 ≤ m ∧ m ≤ 12 := by
  unfold matchMonth at h
  cases hf : List.find? (fun p => headMatch p.1 s) monthAlts with
  | none => simp [hf] at h
  | some q =>
    simp only [hf, Option.map_some', Option.some.injEq] at h
    subst h
    have hmem := List.mem_of_find?_eq_some hf
    have hall : ∀ r ∈ monthAlts, 1 ≤ r.2 ∧ r.2 ≤ 12 := by decide
    exact hall q hmem

theorem wsThenMonth_bound (s : List Char) (m : Nat)
    (h : wsThenMonth s = some m) : 1 ≤ m ∧ m ≤ 12 := by
  cases s with
  | nil => simp [wsThenMonth] at h
  | cons c rest =>
    cases hws : isWsC c with
    | true =>
      simp only [wsThenMonth, hws, if_true] at h
      exact matchMonth_bound _ _ h
    | false => simp [wsThenMonth, hws] at h

theorem afterDay_bound (s : List Char) (m : Nat)
    (h : afterDay s = some m) : 1 ≤ m ∧ m ≤ 12 := by
  unfold afterDay at h
  cases hts : trySuffix s with
  | none =>
    simp only [hts] at h
    exact wsThenMonth_bound _ _ h
  | some s2 =>
    simp only [hts] at h
    cases hw : wsThenMonth s2 with
    | some m2 =>
      simp only [hw, Option.some.injEq] at h
      subst h
      exact wsThenMonth_bound _ _ hw
    | none =>
      simp only [hw] at h
      exact wsThenMonth_bound _ _ h

theorem tryAt_bound (s : List Char) (d m : Nat)
    (h : tryAt s = some (d, m)) : 1 ≤ m ∧ m ≤ 12 := by
  cases s with
  | nil => simp [tryAt] at h
  | cons c1 rest1 =>
    cases hdig1 : c1.isDigit with
    | false => simp [tryAt, hdig1] at h
    | true =>
      cases rest1 with
      | nil => simp [tryAt, hdig1] at h
      | cons c2 rest2 =>
        cases hdig2 : c2.isDigit with
        | false =>
          cases ha1 : afterDay (c2 :: rest2) with
          | some m1 =>
            simp [tryAt, hdig1, hdig2, ha1] at h
            obtain ⟨h1, h2⟩ := h
            subst h2
            exact afterDay_bound _ _ ha1
          | none => simp [tryAt, hdig1, hdig2, ha1] at h
        | true =>
          cases ha2 : afterDay rest2 with
          | some m2 =>
            simp [tryAt, hdig1, hdig2, ha2] at h
            obtain ⟨h1, h2⟩ := h
            subst h2
            exact afterDay_bound _ _ ha2
          | none =>
            cases ha1 : afterDay (c2 :: rest2) with
            | some m1 =>
              simp [tryAt, hdig1, hdig2, ha2, ha1] at h
              obtain ⟨h1, h2⟩ := h
              subst h2
              exact afterDay_bound _ _ ha1
            | none => simp [tryAt, hdig1, hdig2, ha2, ha1] at h

theorem dateSearch_bound (s : List Char) (d m : Nat)
    (h : dateSearch s = some (d, m)) : 1 ≤ m ∧ m ≤ 12 := by
  induction s with
  | nil => simp [dateSearch] at h
  | cons c rest ih =>
    simp only [dateSearch] at h
    cases ht : tryAt (c :: rest) with
    | some r =>
      simp only [ht, Option.some.injEq] at h
      subst h
      exact tryAt_bound _ _ _ ht
    | none =>
      simp only [ht] at h
      exact ih h

/-- C8: the resolver is total (any internal exception is caught by the
outer handler, modelled by the `none` fallback), and both on an internal
exception and on a phrase matching no recognised pattern it returns the
reference day's window [00:00:00, 23:59:59.999999].  Confirmed.  The
hypothesis `plainStr phrase` restricts to the phrases on which the lexical
model is exact (see `plainChar`): there the model's rule dispatch, and so
`parseBody` and `noPattern`, agree with the source's character by
character. -/
theorem c8_theorem (now : PyDateTime) (phrase : List Char)
    (hp : plainStr phrase = true) :
    (parseBody now (lowerTrim phrase) = none →
      parseSmartDate now phrase = todayWindow now) ∧
    (noPattern (lowerTrim phrase) = true →
      parseSmartDate now phrase = todayWindow now) := by
  constructor
  · intro h
    unfold parseSmartDate
    rw [h]
  · intro h
    unfold noPattern at h
    simp only [Bool.and_eq_true, Bool.not_eq_true', Option.isNone_iff_eq_none] at h
    obtain ⟨⟨⟨⟨h1, h2⟩, h3⟩, h4⟩, h5⟩ := h
    unfold parseSmartDate parseBody
    rw [h1, h2, h3, h4, h5]
    simp

/-- Witness for C8: the unrecognised phrase "hello there" resolves to the
reference day's window, and so does "saturday" uttered on 9999-12-31, where
the internal date arithmetic overflows and the exception fallback fires. -/
theorem c8_witness :
    parseSmartDate ⟨2025, 6, 16, 10, 0, 0, 0⟩ ("hello there".toList) =
      todayWindow ⟨2025, 6, 16, 10, 0, 0, 0⟩ ∧
    parseSmartDate ⟨9999, 12, 31, 10, 0, 0, 0⟩ ("saturday".toList) =
      todayWindow ⟨9999, 12, 31, 10, 0, 0, 0⟩ :=
  ⟨(c8_theorem ⟨2025, 6, 16, 10, 0, 0, 0⟩ ("hello there".toList) (by decide)).2
      (by decide),
   (c8_theorem ⟨9999, 12, 31, 10, 0, 0, 0⟩ ("saturday".toList) (by decide)).1
      (by decide)⟩

/-- C9 fails on the code at the boundaries: with reference time
9999-07-15, "29th june" needs a rollover to year 10000, the `ValueError`
escapes to the outer handler, and the resolver returns the today window
instead of next June 29; and with reference 2024-03-15, "29th feb" (a valid
date in leap year 2024 that has passed) rolls to the nonexistent
2025-02-29 and falls back to 2025-02-01, not an occurrence of Feb 29. -/
theorem c9_counterexample :
    (parseSmartDate ⟨9999, 7, 15, 12, 0, 0, 0⟩ ("29th june".toList)).1 =
      ⟨9999, 7, 15, 0, 0, 0, 0⟩ ∧
    (parseSmartDate ⟨2024, 3, 15, 12, 0, 0, 0⟩ ("29th feb".toList)).1 =
      ⟨2025, 2, 1, 0, 0, 0, 0⟩ := by decide

/-- C9 amended: for every phrase whose day-and-month pattern search yields
(d, m) and every valid reference time, the resolved window is the day
window of: the reference-year date when it is valid and has not passed;
the next-year date when the reference-year date is valid, has passed, and
the next-year date is also valid; and otherwise the first day of that
month, rolled forward a year if already past (possible whenever the
reference year is at most 9998).  The scenario "29th June" at 15 July
still resolves to June 29 of the reference year + 1.  The hypothesis
`plainStr phrase` restricts to the phrases on which the lexical model
(and hence `dateSearch`, which then agrees with the source's `re.search`)
is exact; see `plainChar`. -/
theorem c9_theorem (now : PyDateTime) (phrase : List Char) (d m : Nat)
    (hv : validDT now = true) (hp : plainStr phrase = true)
    (hs : dateSearch (lowerTrim phrase) = some (d, m)) :
    (validDate now.year m d = true →
      pyLt ⟨now.year, m, d, 0, 0, 0, 0⟩ now = false →
      parseSmartDate now phrase =
        (⟨now.year, m, d, 0, 0, 0, 0⟩, ⟨now.year, m, d, 23, 59, 59, 999999⟩)) ∧
    (validDate now.year m d = true →
      pyLt ⟨now.year, m, d, 0, 0, 0, 0⟩ now = true →
      validDate (now.year + 1) m d = true →
      parseSmartDate now phrase =
        (⟨now.year + 1, m, d, 0, 0, 0, 0⟩,
         ⟨now.year + 1, m, d, 23, 59, 59, 999999⟩)) ∧
    (validDate now.year m d = true →
      pyLt ⟨now.year, m, d, 0, 0, 0, 0⟩ now = true →
      validDate (now.year + 1) m d = false →
      pyLt ⟨now.year, m, 1, 0, 0, 0, 0⟩ now = true → now.year ≤ 9998 →
      parseSmartDate now phrase =
        (⟨now.year + 1, m, 1, 0, 0, 0, 0⟩,
         ⟨now.year + 1, m, 1, 23, 59, 59, 999999⟩)) ∧
    (validDate now.year m d = false →
      pyLt ⟨now.year, m, 1, 0, 0, 0, 0⟩ now = false →
      parseSmartDate now phrase =
        (⟨now.year, m, 1, 0, 0, 0, 0⟩, ⟨now.year, m, 1, 23, 59, 59, 999999⟩)) ∧
    (validDate now.year m d = false →
      pyLt ⟨now.year, m, 1, 0, 0, 0, 0⟩ now = true → now.year ≤ 9998 →
      parseSmartDate now phrase =
        (⟨now.year + 1, m, 1, 0, 0, 0, 0⟩,
         ⟨now.year + 1, m, 1, 23, 59, 59, 999999⟩)) := by
  have hm := dateSearch_bound _ _ _ hs
  have hvv := (validDT_iff now).mp hv
  have hv1 : validDate now.year m 1 = true := by
    rw [validDate_iff]
    have h28 := daysInMonth_bounds now.year m
    omega
  refine ⟨?_, ?_, ?_, ?_, ?_⟩
  · intro hvd hlt
    unfold parseSmartDate parseBody explicitTarget mkDate0
    simp [hs, hvd, hlt, dayStart, dayEnd]
  · intro hvd hlt hvd2
    unfold parseSmartDate parseBody explicitTarget mkDate0
    simp [hs, hvd, hlt, hvd2, dayStart, dayEnd]
  · intro hvd hlt hvd2 hlt1 hy
    have hv2 : validDate (now.year + 1) m 1 = true := by
      rw [validDate_iff]
      have h28 := daysInMonth_bounds (now.year + 1) m
      omega
    unfold parseSmartDate parseBody explicitTarget mkDate0
    simp [hs, hvd, hlt, hvd2, hlt1, hv1, hv2, dayStart, dayEnd]
  · intro hvd hlt1
    unfold parseSmartDate parseBody explicitTarget mkDate0
    simp [hs, hvd, hlt1, hv1, dayStart, dayEnd]
  · intro hvd hlt1 hy
    have hv2 : validDate (now.year + 1) m 1 = true := by
      rw [validDate_iff]
      have h28 := daysInMonth_bounds (now.year + 1) m
      omega
    unfold parseSmartDate parseBody explicitTarget mkDate0
    simp [hs, hvd, hlt1, hv1, hv2, dayStart, dayEnd]

/-- Witness for C9's amended theorem: the spec scenario itself — "29th june"
at reference 2025-07-15 resolves to 2026-06-29 (reference year + 1). -/
theorem c9_witness :
    parseSmartDate ⟨2025, 7, 15, 12, 0, 0, 0⟩ ("29th june".toList) =
      (⟨2026, 6, 29, 0, 0, 0, 0⟩, ⟨2026, 6, 29, 23, 59, 59, 999999⟩) :=
  (c9_theorem ⟨2025, 7, 15, 12, 0, 0, 0⟩ ("29th june".toList) 29 6 (by decide)
    (by decide) (by decide)).2.1 (by decide) (by decide) (by decide)

/-- C10 fails on the code at the calendar boundary: "saturday" uttered on
Friday 9999-12-31 requires `now + timedelta(days=1)`, which overflows
`datetime.max`; the exception is caught and the resolver returns the today
window, whose weekday (Friday, 4) differs from the named weekday (5). -/
theorem c10_counterexample :
    parseSmartDate ⟨9999, 12, 31, 10, 0, 0, 0⟩ ("saturday".toList) =
      (⟨9999, 12, 31, 0, 0, 0, 0⟩, ⟨9999, 12, 31, 23, 59, 59, 999999⟩) ∧
    firstWeekday (lowerTrim ("saturday".toList)) = some 5 ∧
    weekdayDT ⟨9999, 12, 31, 0, 0, 0, 0⟩ = 4 := by decide

/-- C10 amended: for every phrase handled by the named-weekday rule with a
valid reference time of year at most 9998 (so the bounded date arithmetic
cannot overflow Python's year-9999 cap), the day offset is
`(target_weekday - reference_weekday) mod 7`, bumped to 7 when zero and
the phrase contains "next" or the reference hour is ≥ 17, and the resolved
date's weekday equals the named weekday.  The hypothesis `plainStr phrase`
restricts to the phrases on which the lexical model is exact (see
`plainChar`), so that the branch hypotheses h1–h5 mean the same thing of
the source's dispatch. -/
theorem c10_theorem (now : PyDateTime) (phrase : List Char) (i : Nat)
    (hv : validDT now = true) (hy : now.year ≤ 9998)
    (hp : plainStr phrase = true)
    (h1 : dateSearch (lowerTrim phrase) = none)
    (h2 : subList ("today".toList) (lowerTrim phrase) = false)
    (h3 : subList ("tomorrow".toList) (lowerTrim phrase) = false)
    (h4 : subList ("next week".toList) (lowerTrim phrase) = false)
    (h5 : firstWeekday (lowerTrim phrase) = some i) :
    ∃ t, addDaysO now (dayOffset now (lowerTrim phrase) i) = some t ∧
      parseSmartDate now phrase = (dayStart t, dayEnd t) ∧
      weekdayDT t = i := by
  have hi : i ≤ 6 := firstWeekday_bound _ _ h5
  have hoff : dayOffset now (lowerTrim phrase) i ≤ 7 := by
    have hm7 : (7 + i - weekdayDT now) % 7 < 7 := Nat.mod_lt _ (by norm_num)
    simp only [dayOffset]
    split_ifs <;> omega
  obtain ⟨t, ht, hvt, hord, hth, htm, hts, htus⟩ :=
    addDaysO_spec (dayOffset now (lowerTrim phrase) i) now hv
      (by have := toOrdinal_bound now hv hy; omega)
  refine ⟨t, ht, ?_, ?_⟩
  · unfold parseSmartDate parseBody
    rw [h1, h2, h3, h4, h5]
    simp [ht]
  · have hw7 : weekdayDT now < 7 := Nat.mod_lt _ (by norm_num)
    simp only [dayOffset] at hord
    unfold weekdayDT pyWeekday at hord hw7 ⊢
    split_ifs at hord <;> omega

/-- Witness for C10's amended theorem: the spec scenario — "monday" at
reference Monday 2025-06-16 18:00 resolves to the following Monday,
2025-06-23, not the reference day. -/
theorem c10_witness :
    (∃ t, addDaysO ⟨2025, 6, 16, 18, 0, 0, 0⟩
        (dayOffset ⟨2025, 6, 16, 18, 0, 0, 0⟩ (lowerTrim ("monday".toList)) 0) = some t ∧
      parseSmartDate ⟨2025, 6, 16, 18, 0, 0, 0⟩ ("monday".toList) =
        (dayStart t, dayEnd t) ∧ weekdayDT t = 0) ∧
    parseSmartDate ⟨2025, 6, 16, 18, 0, 0, 0⟩ ("monday".toList) =
      (⟨2025, 6, 23, 0, 0, 0, 0⟩, ⟨2025, 6, 23, 23, 59, 59, 999999⟩) :=
  ⟨c10_theorem ⟨2025, 6, 16, 18, 0, 0, 0⟩ ("monday".toList) 0 (by decide) (by decide)
    (by decide) (by decide) (by decide) (by decide) (by decide) (by decide),
   by decide⟩

end SmartAgent
